import Mathlib

/-!
# belajar — `script.js`

A shallow embedding of the client-side script of the "belajar" learning site and
theorems about it.  Every handler of the script is a function from the state it
reads (form fields, `localStorage`, the clock) to the state it leaves behind.

Strings.  A JavaScript string is modelled by a Lean `String` (a sequence of Unicode
scalar values).  `length` counts UTF-16 code units, `trim` strips the ECMAScript
white space and line terminator characters, `toLowerCase` maps the letters `A`–`Z`
(letters outside ASCII are left as they are: the Unicode case tables are not part
of the model).
-/

namespace Belajar

/-! ## JavaScript string primitives used by the script -/

/-- The characters `String.prototype.trim` removes: ECMAScript `WhiteSpace`
(TAB, VT, FF, SP, NBSP, ZWNBSP and the Unicode space separators) and
`LineTerminator` (LF, CR, LS, PS). -/
def isJSWhiteSpace (c : Char) : Bool :=
  decide (c.toNat ∈ [0x09, 0x0A, 0x0B, 0x0C, 0x0D, 0x20, 0xA0, 0x1680, 0x2028, 0x2029,
    0x202F, 0x205F, 0x3000, 0xFEFF]) || (decide (0x2000 ≤ c.toNat) && decide (c.toNat ≤ 0x200A))

/-- `s.trim()`. -/
def trim (s : String) : String :=
  ⟨((s.data.dropWhile isJSWhiteSpace).reverse.dropWhile isJSWhiteSpace).reverse⟩

/-- JavaScript truthiness of a string: `!s` is true exactly for the empty string. -/
def strTruthy (s : String) : Bool := !s.data.isEmpty

/-! ## Course catalog (`COURSES`, `renderCourses`) -/

/-- A JSON value. -/
inductive JVal where
  | null
  | bool (b : Bool)
  | num (n : Int)
  | str (s : String)
  | arr (items : List JVal)
  | obj (props : List (String × JVal))
deriving Repr, Inhabited


/-- A hexadecimal digit, lower case, as `JSON.stringify` writes it. -/
def hexDigit (n : Nat) : Char :=
  if n < 10 then Char.ofNat (48 + n) else Char.ofNat (87 + n)

/-- How `JSON.stringify` writes one character inside a string (`QuoteJSONString`). -/
def escapeChar (c : Char) : List Char :=
  if c = '"' then ['\\', '"']
  else if c = '\\' then ['\\', '\\']
  else if c = '\x08' then ['\\', 'b']
  else if c = '\x0c' then ['\\', 'f']
  else if c = '\n' then ['\\', 'n']
  else if c = '\r' then ['\\', 'r']
  else if c = '\t' then ['\\', 't']
  else if c.toNat < 0x20 then ['\\', 'u', '0', '0', hexDigit (c.toNat / 16), hexDigit (c.toNat % 16)]
  else [c]

/-- A string between double quotes, its characters escaped. -/
def quoteJSONString (s : List Char) : List Char :=
  '"' :: (s.flatMap escapeChar ++ ['"'])

/-- The decimal digits of `n`; `fuel` bounds their number. -/
def natDigits : Nat → Nat → List Char
  | 0, _ => []
  | fuel + 1, n =>
    if n < 10 then [Char.ofNat (48 + n)]
    else natDigits fuel (n / 10) ++ [Char.ofNat (48 + n % 10)]

/-- The decimal numeral of an integer. -/
def printInt (n : Int) : List Char :=
  match n with
  | Int.ofNat k => natDigits (k + 1) k
  | Int.negSucc k => '-' :: natDigits (k + 2) (k + 1)

mutual
/-- The text of a value, without white space (`JSON.stringify(v)`). -/
def printValue : JVal → List Char
  | .null => ['n', 'u', 'l', 'l']
  | .bool true => ['t', 'r', 'u', 'e']
  | .bool false => ['f', 'a', 'l', 's', 'e']
  | .num n => printInt n
  | .str s => quoteJSONString s.data
  | .arr [] => ['[', ']']
  | .arr (v :: vs) => '[' :: (printValue v ++ printElements vs)
  | .obj [] => ['{', '}']
  | .obj ((k, v) :: ps) => '{' :: (quoteJSONString k.data ++ ':' :: (printValue v ++ printMembers ps))
/-- The rest of an array after its first element, closing bracket included. -/
def printElements : List JVal → List Char
  | [] => [']']
  | v :: vs => ',' :: (printValue v ++ printElements vs)
/-- The rest of an object after its first member, closing brace included. -/
def printMembers : List (String × JVal) → List Char
  | [] => ['}']
  | (k, v) :: ps => ',' :: (quoteJSONString k.data ++ ':' :: (printValue v ++ printMembers ps))
end

/-- `JSON.stringify(v)`. -/
def JSON_stringify (v : JVal) : String := ⟨printValue v⟩


/-- JSON white space. -/
def isJSONWhite (c : Char) : Bool := c == ' ' || c == '\t' || c == '\n' || c == '\r'

/-- Drop leading white space. -/
def skipWhite : List Char → List Char := List.dropWhile isJSONWhite

/-- The value of a hexadecimal digit. -/
def hexValue (c : Char) : Option Nat :=
  if '0' ≤ c ∧ c ≤ '9' then some (c.toNat - 48)
  else if 'a' ≤ c ∧ c ≤ 'f' then some (c.toNat - 87)
  else if 'A' ≤ c ∧ c ≤ 'F' then some (c.toNat - 55)
  else none

/-- The character a one-letter escape stands for. -/
def unescape (c : Char) : Option Char :=
  if c = '"' then some '"' else if c = '\\' then some '\\' else if c = '/' then some '/'
  else if c = 'b' then some '\x08' else if c = 'f' then some '\x0c' else if c = 'n' then some '\n'
  else if c = 'r' then some '\r' else if c = 't' then some '\t' else none

/-- Read a string after its opening quote: the characters and the text after the
closing quote.  A `\u` escape of a surrogate code unit is outside the model. -/
def parseStringBody : List Char → Option (List Char × List Char)
  | [] => none
  | c :: r =>
    if c = '"' then some ([], r)
    else if c = '\\' then
      match r with
      | 'u' :: a :: b :: c :: d :: r =>
        match hexValue a, hexValue b, hexValue c, hexValue d with
        | some a, some b, some c, some d =>
          let n := ((a * 16 + b) * 16 + c) * 16 + d
          if 0xD800 ≤ n ∧ n ≤ 0xDFFF then none
          else (parseStringBody r).map fun p => (Char.ofNat n :: p.1, p.2)
        | _, _, _, _ => none
      | e :: r =>
        match unescape e with
        | some x => (parseStringBody r).map fun p => (x :: p.1, p.2)
        | none => none
      | [] => none
    else if c.toNat < 0x20 then none
    else (parseStringBody r).map fun p => (c :: p.1, p.2)

/-- A decimal digit. -/
def isDigit (c : Char) : Bool := decide ('0' ≤ c) && decide (c ≤ '9')

/-- The number a run of digits denotes. -/
def digitsValue (ds : List Char) : Nat := ds.foldl (fun acc c => 10 * acc + (c.toNat - 48)) 0

/-- Read an unsigned integer numeral: no leading zero, no fraction or exponent. -/
def parseNat (cs : List Char) : Option (Nat × List Char) :=
  let ds := cs.takeWhile isDigit
  let r := cs.dropWhile isDigit
  match ds with
  | [] => none
  | d :: ds' =>
    if d = '0' ∧ ds' ≠ [] then none
    else match r with
      | c :: _ => if c = '.' ∨ c = 'e' ∨ c = 'E' then none else some (digitsValue ds, r)
      | [] => some (digitsValue ds, r)

/-- Read an integer numeral. -/
def parseNumber : List Char → Option (Int × List Char)
  | '-' :: r => (parseNat r).map fun p => (-(p.1 : Int), p.2)
  | cs => (parseNat cs).map fun p => ((p.1 : Int), p.2)

mutual
/-- Read one value and return it with the text that follows; `fuel` bounds the
recursion. -/
def parseValue : Nat → List Char → Option (JVal × List Char)
  | 0, _ => none
  | fuel + 1, cs =>
    match skipWhite cs with
    | 'n' :: 'u' :: 'l' :: 'l' :: r => some (.null, r)
    | 't' :: 'r' :: 'u' :: 'e' :: r => some (.bool true, r)
    | 'f' :: 'a' :: 'l' :: 's' :: 'e' :: r => some (.bool false, r)
    | '"' :: r => (parseStringBody r).map fun p => (.str ⟨p.1⟩, p.2)
    | '[' :: r =>
      match skipWhite r with
      | ']' :: r => some (.arr [], r)
      | r => (parseElements fuel r).map fun p => (.arr p.1, p.2)
    | '{' :: r =>
      match skipWhite r with
      | '}' :: r => some (.obj [], r)
      | r => (parseMembers fuel r).map fun p => (.obj p.1, p.2)
    | cs => (parseNumber cs).map fun p => (.num p.1, p.2)
/-- Read the elements of a non-empty array up to its closing bracket. -/
def parseElements : Nat → List Char → Option (List JVal × List Char)
  | 0, _ => none
  | fuel + 1, cs =>
    match parseValue fuel cs with
    | none => none
    | some (v, r) =>
      match skipWhite r with
      | ',' :: r => (parseElements fuel r).map fun p => (v :: p.1, p.2)
      | ']' :: r => some ([v], r)
      | _ => none
/-- Read the members of a non-empty object up to its closing brace. -/
def parseMembers : Nat → List Char → Option (List (String × JVal) × List Char)
  | 0, _ => none
  | fuel + 1, cs =>
    match skipWhite cs with
    | '"' :: r =>
      match parseStringBody r with
      | none => none
      | some (k, r) =>
        match skipWhite r with
        | ':' :: r =>
          match parseValue fuel r with
          | none => none
          | some (v, r) =>
            match skipWhite r with
            | ',' :: r => (parseMembers fuel r).map fun p => ((⟨k⟩, v) :: p.1, p.2)
            | '}' :: r => some ([(⟨k⟩, v)], r)
            | _ => none
        | _ => none
    | _ => none
end

/-- `JSON.parse(text)`: `none` stands for the `SyntaxError` thrown on a text that is
not a JSON text. -/
def JSON_parse (text : String) : Option JVal :=
  match parseValue (2 * text.length + 2) text.data with
  | some (v, r) => if skipWhite r = [] then some v else none
  | none => none

/-! ## `localStorage` and the `storage` helpers -/

/-- The browser store: the text kept under each key, `none` for an absent key. -/
abbrev LocalStorage := String → Option String

/-- `localStorage.getItem(key)`: the stored text, or `null` (`none`). -/
def localStorage_getItem (ls : LocalStorage) (key : String) : Option String := ls key

/-- `localStorage.setItem(key, text)`. -/
def localStorage_setItem (ls : LocalStorage) (key text : String) : LocalStorage :=
  fun k => if k = key then some text else ls k

/-- `localStorage.removeItem(key)`. -/
def localStorage_removeItem (ls : LocalStorage) (key : String) : LocalStorage :=
  fun k => if k = key then none else ls k

/-- `JSON.parse(item)` for the result of `getItem`: the argument is first converted
to a string, `null` to the text `null`. -/
def JSON_parse_item (item : Option String) : Option JVal :=
  JSON_parse (match item with
    | some text => text
    | none => "null")

/-- `a ?? b`: `b` when `a` is `null`, else `a`. -/
def nullish (a b : JVal) : JVal :=
  match a with
  | .null => b
  | v => v

/-- `storage.get(key, fallback)`:
`try { return JSON.parse(localStorage.getItem(key)) ?? fallback; } catch { return fallback; }`. -/
def storage.get (ls : LocalStorage) (key : String) (fallback : JVal) : JVal :=
  match JSON_parse_item (localStorage_getItem ls key) with
  | some v => nullish v fallback
  | none => fallback

/-- `storage.set(key, value)`: `localStorage.setItem(key, JSON.stringify(value))`. -/
def storage.set (ls : LocalStorage) (key : String) (value : JVal) : LocalStorage :=
  localStorage_setItem ls key (JSON_stringify value)

/-- `storage.del(key)`: `localStorage.removeItem(key)`. -/
def storage.del (ls : LocalStorage) (key : String) : LocalStorage :=
  localStorage_removeItem ls key

/-! ## Property access on parsed values -/

/-- The own property `k` of an object with members `props`: the last member named `k`. -/
def lookup : List (String × JVal) → String → Option JVal
  | [], _ => none
  | (k', v) :: ps, k =>
    match lookup ps k with
    | some w => some w
    | none => if k' = k then some v else none

/-- `item.k` for a property name `k` that no built-in prototype defines (`name`, `msg`,
`time`, `role`, `text`, `pass`): the own property of an object, `undefined` (`none`)
otherwise. -/
def ownProp (item : JVal) (k : String) : Option JVal :=
  match item with
  | .obj props => lookup props k
  | _ => none

/-- Truthiness of a JSON value. -/
def jsTruthy : JVal → Bool
  | .null => false
  | .bool b => b
  | .num n => n != 0
  | .str s => strTruthy s
  | .arr _ => true
  | .obj _ => true

/-- Truthiness of a value that may be `undefined`. -/
def optTruthy : Option JVal → Bool
  | some v => jsTruthy v
  | none => false

mutual
/-- `String(v)`, the conversion string concatenation and template literals apply. -/
def jsToString : JVal → List Char
  | .null => ['n', 'u', 'l', 'l']
  | .bool true => ['t', 'r', 'u', 'e']
  | .bool false => ['f', 'a', 'l', 's', 'e']
  | .num n => printInt n
  | .str s => s.data
  | .arr [] => []
  | .arr (v :: vs) => joinElement v ++ joinRest vs
  | .obj _ => "[object Object]".data
/-- One element of `Array.prototype.join`: `null` gives the empty string. -/
def joinElement : JVal → List Char
  | .null => []
  | .bool true => ['t', 'r', 'u', 'e']
  | .bool false => ['f', 'a', 'l', 's', 'e']
  | .num n => printInt n
  | .str s => s.data
  | .arr [] => []
  | .arr (v :: vs) => joinElement v ++ joinRest vs
  | .obj _ => "[object Object]".data
/-- The remaining elements of a `join`, each after a comma. -/
def joinRest : List JVal → List Char
  | [] => []
  | v :: vs => ',' :: (joinElement v ++ joinRest vs)
end

/-- The text a template literal or a string concatenation inserts for `x`. -/
def interpolate (x : Option JVal) : String :=
  match x with
  | some v => ⟨jsToString v⟩
  | none => "undefined"

/-- `s.replace(/</g, '&lt;')`. -/
def escapeLt (s : String) : String :=
  ⟨s.data.flatMap fun c => if c = '<' then ['&', 'l', 't', ';'] else [c]⟩

/-- `a || b` on strings: `a` unless it is empty. -/
def strOr (a b : String) : String := if strTruthy a then a else b

/-! ## Quiz (`QUESTIONS`, `renderQuiz`) -/

/-- One quiz question: prompt, options, index of the correct option. -/
structure Question where
  q : String
  a : List String
  c : Nat
deriving DecidableEq, Repr

/-- The fixed question set. -/
def QUESTIONS : List Question := [
  { q := "Apa kepanjangan dari HTML?",
    a := ["HyperText Markup Language", "HighText Machine Language",
      "Hyperlinks and Text Markup Language", "Home Tool Markup Language"], c := 0 },
  { q := "Di JavaScript, method untuk mencetak ke console adalah?",
    a := ["print()", "console.log()", "echo()", "logger()"], c := 1 },
  { q := "Simbol komentar satu baris di Python adalah?",
    a := ["//", "<!-- -->", "#", "--"], c := 2 },
  { q := "CSS digunakan untuk?",
    a := ["Struktur halaman", "Membuat database", "Mengatur tampilan", "Menjalankan server"],
    c := 2 },
  { q := "Apa ekstensi berkas untuk file Java?",
    a := [".jav", ".jar", ".jv", ".java"], c := 3 } ]

/-! JavaScript numbers are IEEE 754 doubles: a division or a product returns the double
nearest to the exact result.  The values met here are rationals between 0 and 100, well
inside the normal range, so a double is modelled by the rational it denotes. -/

/-- The number of binary digits of `n`; `fuel` bounds the recursion. -/
def bitLength : Nat → Nat → Nat
  | 0, _ => 0
  | fuel + 1, n => if n = 0 then 0 else bitLength fuel (n / 2) + 1

/-- The power `2 ^ k` for an integer `k`. -/
def pow2 (k : ℤ) : ℚ :=
  match k with
  | Int.ofNat n => (2 : ℚ) ^ n
  | Int.negSucc n => 1 / (2 : ℚ) ^ (n + 1)

/-- The exponent `e` with `2 ^ e ≤ x < 2 ^ (e + 1)`, for `x > 0`. -/
def binaryExponent (x : ℚ) : ℤ :=
  let k : ℤ := (bitLength x.num.natAbs x.num.natAbs : ℤ) - (bitLength x.den x.den : ℤ)
  if pow2 k ≤ x then k else k - 1

/-- Rounding to the nearest integer, a tie going to the even one. -/
def roundHalfEven (m : ℚ) : ℤ :=
  let f := ⌊m⌋
  if m - f < 1 / 2 then f
  else if 1 / 2 < m - f then f + 1
  else if f % 2 = 0 then f else f + 1

/-- The double nearest to a rational `x ≥ 0` of the normal range (round to nearest, ties
to even): the significand is rounded to 53 bits. -/
def toDouble (x : ℚ) : ℚ :=
  if x ≤ 0 then 0
  else
    let e := binaryExponent x - 52
    (roundHalfEven (x / pow2 e) : ℚ) * pow2 e

/-- `Math.round(x)`: the integer nearest to `x`, a tie going up. -/
def Math.round (x : ℚ) : ℤ := ⌊x + 1 / 2⌋

/-- The loop of `form.onsubmit` over `QUESTIONS.forEach((it, idx) => ...)`, from question
`idx` on: `chosen idx` is the value of the checked radio button of group `q{idx}`
(`none` when no button of the group is checked), and the score grows by one when
`Number(chosen.value) === it.c`. -/
def scoreLoop (chosen : Nat → Option Nat) : List Question → Nat → Nat → Nat
  | [], _, score => score
  | it :: rest, idx, score =>
    scoreLoop chosen rest (idx + 1) (if chosen idx = some it.c then score + 1 else score)

/-- The score `form.onsubmit` computes. -/
def quizScore (chosen : Nat → Option Nat) : Nat := scoreLoop chosen QUESTIONS 0 0

/-- The percentage `Math.round(score / QUESTIONS.length * 100)`: the quotient and the
product are doubles. -/
def quizPercent (score : Nat) : ℤ :=
  Math.round (toDouble (toDouble ((score : ℚ) / (QUESTIONS.length : ℚ)) * 100))

/-- The text `form.onsubmit` writes to `#quizResult`. -/
def quizResult (chosen : Nat → Option Nat) : String :=
  let score := quizScore chosen
  let total := QUESTIONS.length
  let percent := quizPercent score
  s!"Nilai kamu: {score}/{total} ({percent}%)"

/-! ## Router (`showRoute`) -/

/-- An element of the page, as far as the router reads and writes it. -/
structure Element where
  id : String
  classList : List String
  dataTarget : Option String
deriving DecidableEq, Repr

/-- `el.classList.remove(c)`. -/
def Element.removeClass (e : Element) (c : String) : Element :=
  { e with classList := e.classList.filter fun x => x != c }

/-- `el.classList.add(c)`. -/
def Element.addClass (e : Element) (c : String) : Element :=
  { e with classList := if c ∈ e.classList then e.classList else e.classList ++ [c] }

/-- `el.classList.toggle(c, force)`. -/
def Element.toggleClass (e : Element) (c : String) (force : Bool) : Element :=
  if force then e.addClass c else e.removeClass c

/-- Apply `f` to the element `document.getElementById(id)` returns, if any: the first
element in document order whose id is `id`; no element has the empty id. -/
def withElementById (f : Element → Element) (id : String) : List Element → List Element
  | [] => []
  | e :: es =>
    if e.id = id ∧ id ≠ "" then f e :: es else e :: withElementById f id es

/-- The page: its elements in document order and the fragment of its address. -/
structure Page where
  elements : List Element
  hash : String
deriving DecidableEq, Repr

/-- `showRoute(id)`.  `routes` are the elements of class `route`, `navLinks` those of
class `nav-link` (the script never changes either class). -/
def showRoute (page : Page) (id : String) : Page :=
  let hidden := page.elements.map fun r =>
    if "route" ∈ r.classList then r.removeClass "show" else r
  let shown := withElementById (fun el => el.addClass "show") id hidden
  let marked := shown.map fun b =>
    if "nav-link" ∈ b.classList then b.toggleClass "active" (b.dataTarget == some id) else b
  { elements := marked, hash := "#" ++ id }

/-- A section is an element of class `route`. -/
def Element.isSection (e : Element) : Bool := decide ("route" ∈ e.classList)

/-- A section is visible when it carries the class `show`. -/
def Element.visible (e : Element) : Bool := e.isSection && decide ("show" ∈ e.classList)

/-! ## Forum (`initForum`) -/

/-- The markup `render` of the forum gives one stored item, `none` when building it
throws (`item.msg` is not a string).  `dateString x` stands for
`new Date(x).toLocaleString()`, which depends on the locale and time zone. -/
def forumItemHTML (dateString : Option JVal → String) (item : JVal) : Option String :=
  match ownProp item "msg" with
  | some (.str msg) =>
    some ("\n        <div class=\"forum-meta\">" ++ interpolate (ownProp item "name") ++ " • "
      ++ dateString (ownProp item "time") ++ "</div>\n        <div>" ++ escapeLt msg
      ++ "</div>\n      ")
  | _ => none

/-- The `forEach` of a `render`: one child is appended per item, in order, until
building the markup of an item throws. -/
def renderItems (html : JVal → Option String) : List JVal → List String
  | [] => []
  | item :: rest =>
    match html item with
    | some h => h :: renderItems html rest
    | none => []

/-- `render` of the forum: the markup of the children of `#forumList`, top to bottom.
A stored value that is not an array leaves the list empty (`data.slice().reverse()`
throws after the list was cleared). -/
def forumRender (dateString : Option JVal → String) (ls : LocalStorage) : List String :=
  match storage.get ls "forum" (.arr []) with
  | .arr data => renderItems (forumItemHTML dateString) data.reverse
  | _ => []

/-- The record `{name, msg, time}` a forum submit stores. -/
def forumRecord (name msg : String) (time : Int) : JVal :=
  .obj [("name", .str name), ("msg", .str msg), ("time", .num time)]

/-- The submit handler of `#forumForm`; `now` is `Date.now()`.  A stored value that is
not an array makes `data.push` throw before anything is written. -/
def forumSubmit (ls : LocalStorage) (forumName forumMessage : String) (now : Int) :
    LocalStorage :=
  let name := strOr (trim forumName) "Anonim"
  let msg := trim forumMessage
  if !strTruthy msg then ls
  else
    match storage.get ls "forum" (.arr []) with
    | .arr data => storage.set ls "forum" (.arr (data ++ [forumRecord name msg now]))
    | _ => ls

/-! ## Feedback (`initFeedback`) -/

/-- The markup `render` of the feedback board gives one stored item, `none` when
building it throws (`item.text` is not a string). -/
def feedbackItemHTML (item : JVal) : Option String :=
  match ownProp item "text" with
  | some (.str text) =>
    some ("<div class=\"feedback-name\">" ++ interpolate (ownProp item "name")
      ++ (if optTruthy (ownProp item "role") then " • " ++ interpolate (ownProp item "role")
          else "")
      ++ "</div><div>" ++ escapeLt text ++ "</div>")
  | _ => none

/-- `render` of the feedback board: the markup of the children of `#feedbackList`. -/
def feedbackRender (ls : LocalStorage) : List String :=
  match storage.get ls "feedback" (.arr []) with
  | .arr data => renderItems feedbackItemHTML data.reverse
  | _ => []

/-- The record `{name, role, text, time}` a feedback submit stores. -/
def feedbackRecord (name role text : String) (time : Int) : JVal :=
  .obj [("name", .str name), ("role", .str role), ("text", .str text), ("time", .num time)]

/-- The submit handler of `#feedbackForm`; `now` is `Date.now()`. -/
def feedbackSubmit (ls : LocalStorage) (fbName fbRole fbText : String) (now : Int) :
    LocalStorage :=
  let name := strOr (trim fbName) "Anonim"
  let role := trim fbRole
  let text := trim fbText
  if !strTruthy text then ls
  else
    match storage.get ls "feedback" (.arr []) with
    | .arr data => storage.set ls "feedback" (.arr (data ++ [feedbackRecord name role text now]))
    | _ => ls

/-! ## Auth (`initAuth`) -/

/-- The click handler of `#logoutBtn`. -/
def logoutClick (ls : LocalStorage) : LocalStorage × String :=
  (storage.del ls "session", "Kamu sudah logout.")

/-! ## Sample states and the markup of well-formed records -/

/-- The markup of a forum record `{name, msg, time}`. -/
def forumPostHTML (dateString : Option JVal → String) (name msg : String) (time : Int) : String :=
  "\n        <div class=\"forum-meta\">" ++ name ++ " • " ++ dateString (some (JVal.num time))
    ++ "</div>\n        <div>" ++ escapeLt msg ++ "</div>\n      "

/-- The markup of a feedback record `{name, role, text, time}`. -/
def feedbackEntryHTML (name role text : String) : String :=
  "<div class=\"feedback-name\">" ++ name ++ (if role = "" then "" else " • " ++ role)
    ++ "</div><div>" ++ escapeLt text ++ "</div>"

/-- A page with two sections and two navigation links, the home section shown. -/
def samplePage : Page :=
  { elements := [
      { id := "home", classList := ["route", "show"], dataTarget := none },
      { id := "quiz", classList := ["route"], dataTarget := none },
      { id := "", classList := ["nav-link", "active"], dataTarget := some "home" },
      { id := "", classList := ["nav-link"], dataTarget := some "quiz" }],
    hash := "#home" }

/-! ## Predicates used in the proofs -/

/-- The element has the id `id`; the empty string is the id of no element. -/
@[reducible] def Element.hasId (e : Element) (id : String) : Prop := e.id = id ∧ id ≠ ""

/-- Ids are unique in the document: the elements that carry an id have pairwise
different ids. -/
@[reducible] def UniqueIds (els : List Element) : Prop :=
  ((els.filter fun e => e.id != "").map fun e => e.id).Nodup


/-- A continuation at which a number ends: it does not go on with a digit, a fraction or an exponent. -/
def NumStop (rest : List Char) : Prop :=
  ∀ c ∈ rest.head?, isDigit c = false ∧ c ≠ '.' ∧ c ≠ 'e' ∧ c ≠ 'E'

/-- The first character of a printed value: not white space, not a closing bracket. -/
def HeadOK (l : List Char) : Prop :=
  ∃ c tl, l = c :: tl ∧ isJSONWhite c = false ∧ c ≠ ']' ∧ c ≠ '}'

/-- What the round trip says of one value. -/
def ValueRoundTrips (v : JVal) : Prop :=
  ∀ (f : Nat) (rest : List Char), 2 * (printValue v).length < f → NumStop rest →
    parseValue f (printValue v ++ rest) = some (v, rest)

/-- The first step of `showRoute`: every section loses the class `show`. -/
def hideRoute (r : Element) : Element :=
  if "route" ∈ r.classList then r.removeClass "show" else r

/-- The last step of `showRoute`: every navigation link is marked or unmarked. -/
def markLink (id : String) (b : Element) : Element :=
  if "nav-link" ∈ b.classList then b.toggleClass "active" (b.dataTarget == some id) else b

/-! # Theorems -/

/-! ## The codec: `JSON.parse` reads back what `JSON.stringify` writes -/

theorem hex_roundtrip : ∀ n, n < 16 → hexValue (hexDigit n) = some n := by decide

theorem parseStringBody_quote_nil (r : List Char) : parseStringBody ('"' :: r) = some ([], r) := by
  rw [parseStringBody.eq_def]; simp

theorem parseStringBody_u (a b c d : Char) (r : List Char) :
    parseStringBody ('\\' :: 'u' :: a :: b :: c :: d :: r) =
      match hexValue a, hexValue b, hexValue c, hexValue d with
      | some a, some b, some c, some d =>
        if 0xD800 ≤ ((a * 16 + b) * 16 + c) * 16 + d ∧ ((a * 16 + b) * 16 + c) * 16 + d ≤ 0xDFFF then none
        else (parseStringBody r).map fun p => (Char.ofNat (((a * 16 + b) * 16 + c) * 16 + d) :: p.1, p.2)
      | _, _, _, _ => none := by
  rw [parseStringBody.eq_def]; simp

theorem parseStringBody_escapeChar (c : Char) (tl : List Char) :
    parseStringBody (escapeChar c ++ tl) = (parseStringBody tl).map fun p => (c :: p.1, p.2) := by
  unfold escapeChar
  split_ifs with h1 h2 h3 h4 h5 h6 h7 h8
  · subst h1; rfl
  · subst h2; rfl
  · subst h3; rfl
  · subst h4; rfl
  · subst h5; rfl
  · subst h6; rfl
  · subst h7; rfl
  · have ha := hex_roundtrip (c.toNat / 16) (by omega)
    have hb := hex_roundtrip (c.toNat % 16) (by omega)
    have h0 : hexValue '0' = some 0 := by decide
    have e : ((0 * 16 + 0) * 16 + c.toNat / 16) * 16 + c.toNat % 16 = c.toNat := by omega
    have hlt : ¬ (0xD800 ≤ c.toNat ∧ c.toNat ≤ 0xDFFF) := by omega
    simp only [List.cons_append, List.nil_append, parseStringBody_u, ha, hb, h0, e, hlt, if_false,
      Char.ofNat_toNat]
  · rw [List.singleton_append, parseStringBody.eq_def]
    simp [h1, h2, h8]

theorem parseStringBody_quote (s rest : List Char) :
    parseStringBody (s.flatMap escapeChar ++ '"' :: rest) = some (s, rest) := by
  induction s with
  | nil => simp [parseStringBody_quote_nil]
  | cons c s ih =>
    rw [List.flatMap_cons, List.append_assoc, parseStringBody_escapeChar, ih]
    rfl


theorem digit_facts : ∀ d, d < 10 →
    isDigit (Char.ofNat (48 + d)) = true ∧ (Char.ofNat (48 + d)).toNat - 48 = d ∧
    (Char.ofNat (48 + d) = '0' → d = 0) ∧ isJSONWhite (Char.ofNat (48 + d)) = false := by decide

theorem digitsValue_append (xs : List Char) (c : Char) :
    digitsValue (xs ++ [c]) = 10 * digitsValue xs + (c.toNat - 48) := by
  simp [digitsValue, List.foldl_append]

theorem natDigits_spec (fuel : Nat) : ∀ n, n < fuel →
    (∀ c ∈ natDigits fuel n, isDigit c = true) ∧ digitsValue (natDigits fuel n) = n ∧
    (∃ d ds, natDigits fuel n = d :: ds ∧ ¬ (d = '0' ∧ ds ≠ []) ∧ (d = '0' → n = 0)) := by
  induction fuel with
  | zero => intro n h; omega
  | succ fuel ih =>
    intro n hn
    unfold natDigits
    by_cases h10 : n < 10
    · obtain ⟨h1, h2, h3, -⟩ := digit_facts n h10
      simp only [h10, if_true]
      refine ⟨by simpa using h1, by simp [digitsValue, h2], _, [], rfl, by simp, h3⟩
    · simp only [h10, if_false]
      obtain ⟨a1, a2, d, ds, a3, a4, a5⟩ := ih (n / 10) (by omega)
      obtain ⟨h1, h2, -, -⟩ := digit_facts (n % 10) (by omega)
      refine ⟨?_, ?_, d, ds ++ [Char.ofNat (48 + n % 10)], by simp [a3], ?_, ?_⟩
      · intro c hc
        rcases List.mem_append.1 hc with hc | hc
        · exact a1 c hc
        · simp at hc; subst hc; exact h1
      · rw [digitsValue_append, a2, h2]; omega
      · rintro ⟨hd, -⟩
        have := a5 hd
        omega
      · intro hd
        have := a5 hd
        omega

theorem takeWhile_dropWhile_stop (p : Char → Bool) (ds rest : List Char)
    (h : ∀ c ∈ ds, p c = true) (hr : ∀ c ∈ rest.head?, p c = false) :
    (ds ++ rest).takeWhile p = ds ∧ (ds ++ rest).dropWhile p = rest := by
  induction ds with
  | nil =>
    cases rest with
    | nil => simp
    | cons c rest => simp [List.takeWhile, List.dropWhile, hr c (by simp)]
  | cons d ds ih =>
    have hd := h d (by simp)
    have := ih (fun c hc => h c (by simp [hc]))
    simp [List.takeWhile, List.dropWhile, hd, this]

theorem parseNat_natDigits (n : Nat) (rest : List Char) (hr : NumStop rest) :
    parseNat (natDigits (n + 1) n ++ rest) = some (n, rest) := by
  obtain ⟨h1, h2, d, ds, h3, h4, -⟩ := natDigits_spec (n + 1) n (by omega)
  obtain ⟨t1, t2⟩ := takeWhile_dropWhile_stop isDigit _ rest h1 (fun c hc => (hr c hc).1)
  unfold parseNat
  simp only [t1, t2]
  rw [h3] at h2 ⊢
  simp only [h4, if_false, h2]
  cases rest with
  | nil => rfl
  | cons c rest =>
    obtain ⟨-, q1, q2, q3⟩ := hr c (by simp)
    simp [q1, q2, q3]

theorem parseNumber_printInt (n : Int) (rest : List Char) (hr : NumStop rest) :
    parseNumber (printInt n ++ rest) = some (n, rest) := by
  cases n with
  | ofNat k =>
    obtain ⟨h1, -, d, ds, h3, -, -⟩ := natDigits_spec (k + 1) k (by omega)
    have hd : d ≠ '-' := by
      intro e
      have := h1 d (by simp [h3])
      subst e
      simp [isDigit] at this
    have key := parseNat_natDigits k rest hr
    simp only [printInt]
    rw [h3] at key ⊢
    unfold parseNumber
    split
    · rename_i heq; simp at heq; exact absurd heq.1 hd
    · simpa using key
  | negSucc k =>
    have key := parseNat_natDigits (k + 1) rest hr
    simp only [printInt, List.cons_append, parseNumber, key, Option.map_some', Int.negSucc_eq]
    simp


theorem isDigit_head (c : Char) (h : isDigit c = true) :
    isJSONWhite c = false ∧ c ≠ ']' ∧ c ≠ '}' ∧ c ≠ 'n' ∧ c ≠ 't' ∧ c ≠ 'f' ∧ c ≠ '"' ∧ c ≠ '['
      ∧ c ≠ '{' := by
  have h1 : 48 ≤ c.toNat ∧ c.toNat ≤ 57 := by
    simp only [isDigit, Bool.and_eq_true, decide_eq_true_eq] at h
    exact ⟨h.1, h.2⟩
  have hne : ∀ x : Char, (x.toNat < 48 ∨ 57 < x.toNat) → c ≠ x := by
    intro x hx e; subst e; omega
  refine ⟨?_, hne _ (by decide), hne _ (by decide), hne _ (by decide), hne _ (by decide),
    hne _ (by decide), hne _ (by decide), hne _ (by decide), hne _ (by decide)⟩
  have a1 := hne ' ' (by decide)
  have a2 := hne '\t' (by decide)
  have a3 := hne '\n' (by decide)
  have a4 := hne '\r' (by decide)
  simp [isJSONWhite, a1, a2, a3, a4]

theorem printInt_head (n : Int) : ∃ c tl, printInt n = c :: tl ∧ (c = '-' ∨ isDigit c = true) := by
  cases n with
  | ofNat k =>
    obtain ⟨h1, -, d, ds, h3, -, -⟩ := natDigits_spec (k + 1) k (by omega)
    exact ⟨d, ds, h3, Or.inr (h1 d (by simp [h3]))⟩
  | negSucc k => exact ⟨'-', _, rfl, Or.inl rfl⟩

theorem printValue_head (v : JVal) : HeadOK (printValue v) := by
  cases v with
  | null => exact ⟨_, _, rfl, by decide⟩
  | bool b => cases b <;> exact ⟨_, _, rfl, by decide⟩
  | num n =>
    obtain ⟨c, tl, h, hc⟩ := printInt_head n
    refine ⟨c, tl, by simp [printValue, h], ?_⟩
    rcases hc with rfl | hc
    · decide
    · obtain ⟨a, b, c, -⟩ := isDigit_head _ hc
      exact ⟨a, b, c⟩
  | str s => exact ⟨_, _, rfl, by decide⟩
  | arr l => cases l <;> exact ⟨_, _, rfl, by decide⟩
  | obj l =>
    cases l with
    | nil => exact ⟨_, _, rfl, by decide⟩
    | cons p ps => obtain ⟨k, v⟩ := p; exact ⟨_, _, rfl, by decide⟩

theorem skipWhite_cons (c : Char) (tl : List Char) (h : isJSONWhite c = false) :
    skipWhite (c :: tl) = c :: tl := by
  simp [skipWhite, List.dropWhile, h]


theorem parseValue_null (f : Nat) (r : List Char) :
    parseValue (f + 1) ('n' :: 'u' :: 'l' :: 'l' :: r) = some (.null, r) := by
  simp [parseValue, skipWhite, List.dropWhile, isJSONWhite]

theorem parseValue_true (f : Nat) (r : List Char) :
    parseValue (f + 1) ('t' :: 'r' :: 'u' :: 'e' :: r) = some (.bool true, r) := by
  simp [parseValue, skipWhite, List.dropWhile, isJSONWhite]

theorem parseValue_false (f : Nat) (r : List Char) :
    parseValue (f + 1) ('f' :: 'a' :: 'l' :: 's' :: 'e' :: r) = some (.bool false, r) := by
  simp [parseValue, skipWhite, List.dropWhile, isJSONWhite]

theorem parseValue_quote (f : Nat) (r : List Char) :
    parseValue (f + 1) ('"' :: r) = (parseStringBody r).map fun p => (.str ⟨p.1⟩, p.2) := by
  simp [parseValue, skipWhite, List.dropWhile, isJSONWhite]

theorem parseValue_arr_nil (f : Nat) (r : List Char) :
    parseValue (f + 1) ('[' :: ']' :: r) = some (.arr [], r) := by
  simp [parseValue, skipWhite, List.dropWhile, isJSONWhite]

theorem parseValue_obj_nil (f : Nat) (r : List Char) :
    parseValue (f + 1) ('{' :: '}' :: r) = some (.obj [], r) := by
  simp [parseValue, skipWhite, List.dropWhile, isJSONWhite]

theorem parseValue_arr_cons (f : Nat) (r : List Char) (h : HeadOK r) :
    parseValue (f + 1) ('[' :: r) = (parseElements f r).map fun p => (.arr p.1, p.2) := by
  obtain ⟨c, tl, rfl, h1, h2, -⟩ := h
  have h0 : isJSONWhite '[' = false := by decide
  rw [parseValue, skipWhite_cons _ _ h0]
  simp only [skipWhite_cons _ _ h1]
  split
  · rename_i heq; simp at heq; exact absurd heq.1 h2
  · rfl

theorem parseValue_obj_cons (f : Nat) (r : List Char) :
    parseValue (f + 1) ('{' :: '"' :: r) =
      (parseMembers f ('"' :: r)).map fun p => (.obj p.1, p.2) := by
  simp [parseValue, skipWhite, List.dropWhile, isJSONWhite]

theorem parseValue_num (f : Nat) (n : Int) (rest : List Char) (hr : NumStop rest) :
    parseValue (f + 1) (printInt n ++ rest) = some (.num n, rest) := by
  obtain ⟨c, tl, h, hc⟩ := printInt_head n
  have key := parseNumber_printInt n rest hr
  rw [h] at key ⊢
  have hw : isJSONWhite c = false := by
    rcases hc with rfl | hc
    · decide
    · exact (isDigit_head c hc).1
  have hne : c ≠ 'n' ∧ c ≠ 't' ∧ c ≠ 'f' ∧ c ≠ '"' ∧ c ≠ '[' ∧ c ≠ '{' := by
    rcases hc with rfl | hc
    · decide
    · obtain ⟨-, -, -, a, b, c, d, e, f⟩ := isDigit_head c hc
      exact ⟨a, b, c, d, e, f⟩
  obtain ⟨a1, a2, a3, a4, a5, a6⟩ := hne
  rw [parseValue, List.cons_append, skipWhite_cons _ _ hw]
  split <;> rename_i heq <;> simp at heq
  · exact absurd heq.1 a1
  · exact absurd heq.1 a2
  · exact absurd heq.1 a3
  · exact absurd heq.1 a4
  · exact absurd heq.1 a5
  · exact absurd heq.1 a6
  · simpa using key


theorem numStop_nil : NumStop [] := by simp [NumStop]

theorem numStop_comma (r : List Char) : NumStop (',' :: r) := by
  intro c hc; simp at hc; subst hc; decide

theorem numStop_bracket (r : List Char) : NumStop (']' :: r) := by
  intro c hc; simp at hc; subst hc; decide

theorem numStop_brace (r : List Char) : NumStop ('}' :: r) := by
  intro c hc; simp at hc; subst hc; decide

theorem numStop_printElements (vs : List JVal) (r : List Char) : NumStop (printElements vs ++ r) := by
  cases vs with
  | nil => exact numStop_bracket r
  | cons v vs => simp only [printElements, List.cons_append]; exact numStop_comma _

theorem numStop_printMembers (ps : List (String × JVal)) (r : List Char) :
    NumStop (printMembers ps ++ r) := by
  cases ps with
  | nil => exact numStop_brace r
  | cons p ps => obtain ⟨k, v⟩ := p; simp only [printMembers, List.cons_append]; exact numStop_comma _

theorem headOK_append (l r : List Char) (h : HeadOK l) : HeadOK (l ++ r) := by
  obtain ⟨c, tl, rfl, h⟩ := h
  exact ⟨c, tl ++ r, rfl, h⟩

theorem parseElements_step (f : Nat) (v : JVal) (vs : List JVal) (rest : List Char)
    (hv : parseValue f (printValue v ++ (printElements vs ++ rest)) =
      some (v, printElements vs ++ rest)) :
    parseElements (f + 1) (printValue v ++ (printElements vs ++ rest)) =
      match vs with
      | [] => some ([v], rest)
      | w :: ws => (parseElements f (printValue w ++ (printElements ws ++ rest))).map
          fun p => (v :: p.1, p.2) := by
  rw [parseElements, hv]
  cases vs with
  | nil => simp [printElements, skipWhite, List.dropWhile, isJSONWhite]
  | cons w ws => simp [printElements, skipWhite, List.dropWhile, isJSONWhite]

theorem parseMembers_step (f : Nat) (k : String) (v : JVal) (ps : List (String × JVal))
    (rest : List Char)
    (hv : parseValue f (printValue v ++ (printMembers ps ++ rest)) =
      some (v, printMembers ps ++ rest)) :
    parseMembers (f + 1) ('"' :: (k.data.flatMap escapeChar ++ '"' :: ':' ::
      (printValue v ++ (printMembers ps ++ rest)))) =
      match ps with
      | [] => some ([(k, v)], rest)
      | (k', w) :: ps' => (parseMembers f ('"' :: (k'.data.flatMap escapeChar ++ '"' :: ':' ::
          (printValue w ++ (printMembers ps' ++ rest))))).map fun p => ((k, v) :: p.1, p.2) := by
  have h1 : isJSONWhite '"' = false := by decide
  have h2 : isJSONWhite ':' = false := by decide
  rw [parseMembers, skipWhite_cons _ _ h1]
  simp only [parseStringBody_quote, skipWhite_cons _ _ h2, hv]
  cases ps with
  | nil => simp [printMembers, skipWhite, List.dropWhile, isJSONWhite]
  | cons p ps' =>
    obtain ⟨k', w⟩ := p
    simp [printMembers, quoteJSONString, skipWhite, List.dropWhile, isJSONWhite]

mutual
theorem parseValue_printValue : (v : JVal) → ValueRoundTrips v
  | .null, f, rest, hf, _ => by
    obtain ⟨f, rfl⟩ : ∃ g, f = g + 1 := ⟨f - 1, by omega⟩
    exact parseValue_null f rest
  | .bool true, f, rest, hf, _ => by
    obtain ⟨f, rfl⟩ : ∃ g, f = g + 1 := ⟨f - 1, by omega⟩
    exact parseValue_true f rest
  | .bool false, f, rest, hf, _ => by
    obtain ⟨f, rfl⟩ : ∃ g, f = g + 1 := ⟨f - 1, by omega⟩
    exact parseValue_false f rest
  | .num n, f, rest, hf, hr => by
    obtain ⟨f, rfl⟩ : ∃ g, f = g + 1 := ⟨f - 1, by omega⟩
    exact parseValue_num f n rest hr
  | .str s, f, rest, hf, _ => by
    obtain ⟨f, rfl⟩ : ∃ g, f = g + 1 := ⟨f - 1, by omega⟩
    simp only [printValue, quoteJSONString, List.cons_append, List.append_assoc, List.nil_append]
    rw [parseValue_quote, parseStringBody_quote]
    rfl
  | .arr [], f, rest, hf, _ => by
    obtain ⟨f, rfl⟩ : ∃ g, f = g + 1 := ⟨f - 1, by omega⟩
    exact parseValue_arr_nil f rest
  | .arr (v :: vs), f, rest, hf, _ => by
    obtain ⟨f, rfl⟩ : ∃ g, f = g + 1 := ⟨f - 1, by omega⟩
    simp only [printValue, List.cons_append, List.append_assoc, List.length_cons,
      List.length_append] at hf ⊢
    rw [parseValue_arr_cons f _ (headOK_append _ _ (printValue_head v)),
      parseElements_after vs v f rest (parseValue_printValue v)
        (by simp only [List.length_append]; omega)]
    rfl
  | .obj [], f, rest, hf, _ => by
    obtain ⟨f, rfl⟩ : ∃ g, f = g + 1 := ⟨f - 1, by omega⟩
    exact parseValue_obj_nil f rest
  | .obj ((k, v) :: ps), f, rest, hf, _ => by
    obtain ⟨f, rfl⟩ : ∃ g, f = g + 1 := ⟨f - 1, by omega⟩
    simp only [printValue, quoteJSONString, List.cons_append, List.append_assoc, List.length_cons,
      List.length_append, List.nil_append, List.length_nil] at hf ⊢
    rw [parseValue_obj_cons,
      parseMembers_after ps k v f rest (parseValue_printValue v)
        (by simp only [quoteJSONString, List.length_cons, List.length_append, List.length_nil]; omega)]
    rfl
theorem parseElements_after : (vs : List JVal) → ∀ (v : JVal) (f : Nat) (rest : List Char),
    ValueRoundTrips v → 2 * (printValue v ++ printElements vs).length + 1 < f →
    parseElements f (printValue v ++ (printElements vs ++ rest)) = some (v :: vs, rest)
  | [], v, f, rest, hv, hf => by
    obtain ⟨f, rfl⟩ : ∃ g, f = g + 1 := ⟨f - 1, by omega⟩
    simp only [List.length_append] at hf
    rw [parseElements_step f v [] rest
      (hv f _ (by omega) (numStop_printElements _ _))]
  | w :: ws, v, f, rest, hv, hf => by
    obtain ⟨f, rfl⟩ : ∃ g, f = g + 1 := ⟨f - 1, by omega⟩
    simp only [List.length_append, printElements, List.length_cons] at hf
    rw [parseElements_step f v (w :: ws) rest
      (hv f _ (by omega) (numStop_printElements _ _))]
    simp only []
    rw [parseElements_after ws w f rest (parseValue_printValue w)
      (by simp only [List.length_append]; omega)]
    rfl
theorem parseMembers_after : (ps : List (String × JVal)) → ∀ (k : String) (v : JVal) (f : Nat)
    (rest : List Char), ValueRoundTrips v →
    2 * (quoteJSONString k.data ++ ':' :: (printValue v ++ printMembers ps)).length + 1 < f →
    parseMembers f ('"' :: (k.data.flatMap escapeChar ++ '"' :: ':' ::
      (printValue v ++ (printMembers ps ++ rest)))) = some ((k, v) :: ps, rest)
  | [], k, v, f, rest, hv, hf => by
    obtain ⟨f, rfl⟩ : ∃ g, f = g + 1 := ⟨f - 1, by omega⟩
    simp only [List.length_append, List.length_cons] at hf
    rw [parseMembers_step f k v [] rest (hv f _ (by omega) (numStop_printMembers _ _))]
  | (k', w) :: ps, k, v, f, rest, hv, hf => by
    obtain ⟨f, rfl⟩ : ∃ g, f = g + 1 := ⟨f - 1, by omega⟩
    simp only [List.length_append, List.length_cons, printMembers] at hf
    rw [parseMembers_step f k v ((k', w) :: ps) rest
      (hv f _ (by omega) (numStop_printMembers _ _))]
    simp only []
    rw [parseMembers_after ps k' w f rest (parseValue_printValue w)
      (by simp only [List.length_append, List.length_cons]; omega)]
    rfl
end

theorem JSON_parse_stringify (v : JVal) : JSON_parse (JSON_stringify v) = some v := by
  have h := parseValue_printValue v (2 * (printValue v).length + 2) [] (by omega) numStop_nil
  simp only [List.append_nil] at h
  simp [JSON_parse, JSON_stringify, String.length, h, skipWhite]

/-! ## `storage` -/

theorem storage_get_set (ls : LocalStorage) (key : String) (v fallback : JVal) :
    storage.get (storage.set ls key v) key fallback = nullish v fallback := by
  simp [storage.get, storage.set, localStorage_getItem, localStorage_setItem, JSON_parse_item,
    JSON_parse_stringify]

theorem storage_get_set_of_ne (ls : LocalStorage) (key other : String) (v fallback : JVal)
    (h : other ≠ key) :
    storage.get (storage.set ls key v) other fallback = storage.get ls other fallback := by
  simp [storage.get, storage.set, localStorage_getItem, localStorage_setItem, h]

theorem storage_set_of_ne (ls : LocalStorage) (key other : String) (v : JVal) (h : other ≠ key) :
    storage.set ls key v other = ls other := by
  simp [storage.set, localStorage_setItem, h]

/-- C1, as stated, fails: after `storage.set("k", null)` the call `storage.get("k", 0)`
returns the fallback `0`, which is not the value `null` that was stored. -/
theorem C1_counterexample_null :
    storage.get (storage.set (fun _ => none) "k" JVal.null) "k" (JVal.num 0) = JVal.num 0
      ∧ JVal.num 0 ≠ JVal.null := by
  refine ⟨?_, fun h => JVal.noConfusion h⟩
  rw [storage_get_set]
  rfl

/-- C1, amended: for every store, key, fallback and value `v`, `storage.get(key, fallback)`
after `storage.set(key, v)` returns `v` when `v` is not `null` (so for `false`, `0` and the
empty string too), and returns the fallback when `v` is `null`. -/
theorem C1_get_after_set (ls : LocalStorage) (key : String) (v fallback : JVal) :
    (v ≠ JVal.null → storage.get (storage.set ls key v) key fallback = v)
      ∧ (v = JVal.null → storage.get (storage.set ls key v) key fallback = fallback)
      ∧ storage.get (storage.set ls key (JVal.bool false)) key fallback = JVal.bool false
      ∧ storage.get (storage.set ls key (JVal.num 0)) key fallback = JVal.num 0
      ∧ storage.get (storage.set ls key (JVal.str "")) key fallback = JVal.str "" := by
  refine ⟨?_, ?_, ?_, ?_, ?_⟩
  · intro h
    rw [storage_get_set]
    cases v <;> first | rfl | exact absurd rfl h
  · rintro rfl
    rw [storage_get_set]
    rfl
  · rw [storage_get_set]; rfl
  · rw [storage_get_set]; rfl
  · rw [storage_get_set]; rfl

/-- An instance of C1 as amended: an account map, `false` and `null` written and read back. -/
theorem C1_get_after_set_witness :
    storage.get (storage.set (fun _ => none) "progress"
        (JVal.obj [("html", JVal.bool true)])) "progress" (JVal.obj [])
      = JVal.obj [("html", JVal.bool true)]
    ∧ storage.get (storage.set (fun _ => none) "k" JVal.null) "k" (JVal.str "auto")
      = JVal.str "auto" :=
  ⟨(C1_get_after_set _ _ _ _).1 (fun h => JVal.noConfusion h),
   (C1_get_after_set _ _ _ _).2.1 rfl⟩

/-- C2: `storage.get(key, fallback)` is defined for every store, key and fallback
(no exception leaves it), and it returns exactly `fallback` when the key is absent or
the stored text is not a JSON text. -/
theorem C2_get_fallback (ls : LocalStorage) (key : String) (fallback : JVal)
    (h : ls key = none ∨ ∃ text, ls key = some text ∧ JSON_parse text = none) :
    storage.get ls key fallback = fallback := by
  rcases h with h | ⟨text, h, hp⟩
  · have hn : JSON_parse "null" = some JVal.null := by rfl
    simp [storage.get, localStorage_getItem, JSON_parse_item, h, hn, nullish]
  · simp [storage.get, localStorage_getItem, JSON_parse_item, h, hp]

/-- C2 at an absent key and at a stored text that is not JSON. -/
theorem C2_get_fallback_witness :
    storage.get (fun _ => none) "theme" (JVal.str "auto") = JVal.str "auto"
    ∧ storage.get (localStorage_setItem (fun _ => none) "forum" "[1,2") "forum" (JVal.arr [])
      = JVal.arr [] :=
  ⟨C2_get_fallback _ _ _ (Or.inl rfl), C2_get_fallback _ _ _ (Or.inr ⟨"[1,2", rfl, rfl⟩)⟩

/-! ## Course filter -/

theorem scoreLoop_eq_count (sel : List Nat) (qs : List Question) : ∀ (idx acc : Nat),
    scoreLoop (fun i => sel[i]?) qs idx acc
      = acc + ((sel.drop idx).zip qs).countP (fun p => p.1 == p.2.c) := by
  induction qs with
  | nil => intro idx acc; simp [scoreLoop]
  | cons it rest ih =>
    intro idx acc
    rw [scoreLoop, ih]
    by_cases h : idx < sel.length
    · rw [List.drop_eq_getElem_cons h, List.zip_cons_cons, List.countP_cons,
        List.getElem?_eq_getElem h]
      by_cases hc : sel[idx] = it.c
      · simp [hc]; omega
      · simp [hc]
    · have h1 : sel.drop idx = [] := List.drop_eq_nil_of_le (by omega)
      have h2 : sel.drop (idx + 1) = [] := List.drop_eq_nil_of_le (by omega)
      have h3 : sel[idx]? = none := List.getElem?_eq_none (by omega)
      simp [h1, h2, h3]

theorem quizPercent_eq : ∀ score, score < 6 → quizPercent score = 20 * (score : ℤ) := by
  decide!

theorem round_exact_percent (score : Nat) :
    Math.round (100 * (score : ℚ) / (QUESTIONS.length : ℚ)) = 20 * (score : ℤ) := by
  have hlen : (QUESTIONS.length : ℚ) = 5 := by
    have : QUESTIONS.length = 5 := by decide
    rw [this]; norm_num
  unfold Math.round
  rw [hlen, Int.floor_eq_iff]
  constructor
  · push_cast
    linarith
  · push_cast
    linarith

/-- C6: for every vector `sel` of selected option indices (entry `i` is the option
checked for question `i`), the score computed on submit is the number of questions whose
selected index equals the stored correct index, it is at most the number of questions,
and the text shown is `score/total` with the percentage `round(100 * score / total)`,
which is `20 * score`.  `[0,1,2,2,3]` gives 5/5 (100%), all zeros give 1/5 (20%). -/
theorem C6_quiz_score (sel : List Nat) :
    quizScore (fun i => sel[i]?) = (sel.zip QUESTIONS).countP (fun p => p.1 == p.2.c)
      ∧ quizScore (fun i => sel[i]?) ≤ QUESTIONS.length
      ∧ quizResult (fun i => sel[i]?)
          = "Nilai kamu: " ++ toString (quizScore (fun i => sel[i]?)) ++ "/"
              ++ toString QUESTIONS.length ++ " ("
              ++ toString (Math.round (100 * (quizScore (fun i => sel[i]?) : ℚ)
                  / (QUESTIONS.length : ℚ))) ++ "%)"
      ∧ Math.round (100 * (quizScore (fun i => sel[i]?) : ℚ) / (QUESTIONS.length : ℚ))
          = 20 * (quizScore (fun i => sel[i]?) : ℤ)
      ∧ quizResult (fun i => [0, 1, 2, 2, 3][i]?) = "Nilai kamu: 5/5 (100%)"
      ∧ quizResult (fun i => [0, 0, 0, 0, 0][i]?) = "Nilai kamu: 1/5 (20%)" := by
  have hs : quizScore (fun i => sel[i]?) = (sel.zip QUESTIONS).countP (fun p => p.1 == p.2.c) := by
    unfold quizScore
    rw [scoreLoop_eq_count]
    simp
  have hle : quizScore (fun i => sel[i]?) ≤ QUESTIONS.length := by
    rw [hs]
    calc (sel.zip QUESTIONS).countP (fun p => p.1 == p.2.c)
        ≤ (sel.zip QUESTIONS).length := List.countP_le_length _
      _ ≤ QUESTIONS.length := by simp [List.length_zip]
  have h5 : QUESTIONS.length = 5 := by decide
  have hp : quizPercent (quizScore (fun i => sel[i]?))
      = Math.round (100 * (quizScore (fun i => sel[i]?) : ℚ) / (QUESTIONS.length : ℚ)) := by
    rw [round_exact_percent, quizPercent_eq _ (by omega)]
  refine ⟨hs, hle, ?_, round_exact_percent _, ?_, ?_⟩
  · rw [← hp]; rfl
  · have h : quizScore (fun i => [0, 1, 2, 2, 3][i]?) = 5 := by decide
    simp only [quizResult, h, quizPercent_eq 5 (by decide)]
    decide
  · have h : quizScore (fun i => [0, 0, 0, 0, 0][i]?) = 1 := by decide
    simp only [quizResult, h, quizPercent_eq 1 (by decide)]
    decide

/-! ## Router -/

theorem removeClass_id (e : Element) (c : String) : (e.removeClass c).id = e.id := rfl

theorem addClass_id (e : Element) (c : String) : (e.addClass c).id = e.id := rfl

theorem toggleClass_id (e : Element) (c : String) (b : Bool) : (e.toggleClass c b).id = e.id := by
  cases b <;> rfl

theorem mem_removeClass (e : Element) (c x : String) :
    x ∈ (e.removeClass c).classList ↔ x ∈ e.classList ∧ x ≠ c := by
  simp [Element.removeClass]

theorem mem_addClass (e : Element) (c x : String) :
    x ∈ (e.addClass c).classList ↔ x ∈ e.classList ∨ x = c := by
  unfold Element.addClass
  by_cases h : c ∈ e.classList
  · simp only [h, if_true]
    constructor
    · exact Or.inl
    · rintro (h1 | rfl)
      · exact h1
      · exact h
  · simp [h]

theorem mem_toggleClass_of_ne (e : Element) (c x : String) (b : Bool) (h : x ≠ c) :
    x ∈ (e.toggleClass c b).classList ↔ x ∈ e.classList := by
  cases b
  · simp [Element.toggleClass, mem_removeClass, h]
  · simp [Element.toggleClass, mem_addClass, h]

theorem showRoute_elements (page : Page) (id : String) :
    (showRoute page id).elements
      = (withElementById (fun el => el.addClass "show") id (page.elements.map hideRoute)).map
          (markLink id) := rfl

theorem hideRoute_id (e : Element) : (hideRoute e).id = e.id := by
  unfold hideRoute; split <;> rfl

theorem hideRoute_isSection (e : Element) : (hideRoute e).isSection = e.isSection := by
  unfold hideRoute
  split
  · have : ("route" ∈ (e.removeClass "show").classList) ↔ "route" ∈ e.classList := by
      rw [mem_removeClass]; simp
    simp [Element.isSection, this]
  · rfl

theorem hideRoute_not_visible (e : Element) : (hideRoute e).visible = false := by
  unfold hideRoute
  by_cases h : "route" ∈ e.classList
  · simp [h, Element.visible, mem_removeClass]
  · simp [h, Element.visible, Element.isSection]

theorem markLink_id (id : String) (e : Element) : (markLink id e).id = e.id := by
  unfold markLink; split
  · exact toggleClass_id _ _ _
  · rfl

theorem markLink_visible (id : String) (e : Element) : (markLink id e).visible = e.visible := by
  unfold markLink
  split
  · have h1 := mem_toggleClass_of_ne e "active" "route" (e.dataTarget == some id) (by decide)
    have h2 := mem_toggleClass_of_ne e "active" "show" (e.dataTarget == some id) (by decide)
    simp [Element.visible, Element.isSection, h1, h2]
  · rfl

theorem addShow_visible (e : Element) : (e.addClass "show").visible = e.isSection := by
  have h1 : "route" ∈ (e.addClass "show").classList ↔ "route" ∈ e.classList := by
    rw [mem_addClass]; simp
  have h2 : "show" ∈ (e.addClass "show").classList := by
    rw [mem_addClass]; simp
  simp [Element.visible, Element.isSection, h1, h2]

theorem withElementById_length (f : Element → Element) (id : String) (l : List Element) :
    (withElementById f id l).length = l.length := by
  induction l with
  | nil => rfl
  | cons e es ih =>
    unfold withElementById
    split <;> simp [ih]

theorem mem_withElementById (f : Element → Element) (id : String) (l : List Element)
    (x : Element) (hx : x ∈ withElementById f id l) :
    x ∈ l ∨ ∃ e ∈ l, e.hasId id ∧ x = f e := by
  induction l with
  | nil => simp [withElementById] at hx
  | cons e es ih =>
    unfold withElementById at hx
    split at hx
    · rename_i h
      rcases List.mem_cons.1 hx with rfl | hx
      · exact Or.inr ⟨e, by simp, h, rfl⟩
      · exact Or.inl (by simp [hx])
    · rcases List.mem_cons.1 hx with rfl | hx
      · exact Or.inl (by simp)
      · rcases ih hx with h | ⟨e0, h0, h1, h2⟩
        · exact Or.inl (by simp [h])
        · exact Or.inr ⟨e0, by simp [h0], h1, h2⟩

theorem withElementById_hit (f : Element → Element) (id : String) (l : List Element)
    (h : ∃ e ∈ l, e.hasId id) : ∃ e ∈ l, e.hasId id ∧ f e ∈ withElementById f id l := by
  induction l with
  | nil => simp at h
  | cons e es ih =>
    unfold withElementById
    by_cases he : e.id = id ∧ id ≠ ""
    · exact ⟨e, by simp, he, by simp [he]⟩
    · obtain ⟨e0, h0, h1⟩ := h
      rcases List.mem_cons.1 h0 with rfl | h0
      · exact absurd h1 he
      · obtain ⟨e1, a, b, c⟩ := ih ⟨e0, h0, h1⟩
        exact ⟨e1, by simp [a], b, by simp [he, c]⟩

theorem countP_withElementById (f : Element → Element) (id : String) (l : List Element)
    (h : ∀ e ∈ l, e.visible = false) :
    (withElementById f id l).countP Element.visible ≤ 1 := by
  have hz : ∀ l : List Element, (∀ e ∈ l, e.visible = false) → l.countP Element.visible = 0 := by
    intro l hl
    rw [List.countP_eq_zero]
    intro e he
    simp [hl e he]
  induction l with
  | nil => simp [withElementById]
  | cons e es ih =>
    have hes : ∀ x ∈ es, x.visible = false := fun x hx => h x (by simp [hx])
    unfold withElementById
    split
    · rw [List.countP_cons, hz es hes]
      split <;> simp
    · rw [List.countP_cons, h e (by simp)]
      simpa using ih hes

theorem unique_of_uniqueIds (els : List Element) (hu : UniqueIds els) (a b : Element)
    (ha : a ∈ els) (hb : b ∈ els) (hab : a.id = b.id) (hne : a.id ≠ "") : a = b := by
  have ha2 : a ∈ els.filter fun e => e.id != "" := by simp [ha, hne]
  have hb2 : b ∈ els.filter fun e => e.id != "" := by simp [hb, ← hab, hne]
  exact List.inj_on_of_nodup_map hu ha2 hb2 hab

/-- C9: after `showRoute(id)`, whatever was visible before, at most one section is
visible, and a visible section has the id `id`; when the ids of the document are unique
and a section has that id, it is visible; when no section has that id, no section is
visible.  The call always returns (the new address fragment is `#id`, no element is
added or removed). -/
theorem C9_router_exclusive (page : Page) (id : String) (hu : UniqueIds page.elements) :
    (showRoute page id).elements.countP Element.visible ≤ 1
      ∧ (∀ x ∈ (showRoute page id).elements, x.visible = true →
          x.id = id ∧ ∃ e ∈ page.elements, e.isSection = true ∧ e.hasId id)
      ∧ ((∃ e ∈ page.elements, e.isSection = true ∧ e.hasId id) →
          ∃ x ∈ (showRoute page id).elements, x.visible = true ∧ x.id = id)
      ∧ ((∀ e ∈ page.elements, e.isSection = true → ¬ e.hasId id) →
          ∀ x ∈ (showRoute page id).elements, x.visible = false)
      ∧ (showRoute page id).elements.length = page.elements.length
      ∧ (showRoute page id).hash = "#" ++ id := by
  have hhid : ∀ e ∈ page.elements.map hideRoute, e.visible = false := by
    intro e he
    obtain ⟨e0, -, rfl⟩ := List.mem_map.1 he
    exact hideRoute_not_visible e0
  have hB : ∀ x ∈ (showRoute page id).elements, x.visible = true →
      x.id = id ∧ ∃ e ∈ page.elements, e.isSection = true ∧ e.hasId id := by
    intro x hx hv
    rw [showRoute_elements] at hx
    obtain ⟨y, hy, rfl⟩ := List.mem_map.1 hx
    rw [markLink_visible] at hv
    rw [markLink_id]
    rcases mem_withElementById _ _ _ _ hy with h | ⟨e1, h1, h2, rfl⟩
    · rw [hhid y h] at hv; exact absurd hv (by decide)
    · obtain ⟨e0, h0, rfl⟩ := List.mem_map.1 h1
      rw [addShow_visible, hideRoute_isSection] at hv
      have hid : e0.hasId id := ⟨(hideRoute_id e0) ▸ h2.1, h2.2⟩
      exact ⟨by rw [addClass_id]; exact h2.1, e0, h0, hv, hid⟩
  refine ⟨?_, hB, ?_, ?_, ?_, rfl⟩
  · rw [showRoute_elements, List.countP_map]
    have : (Element.visible ∘ markLink id) = Element.visible := by
      funext e; exact markLink_visible id e
    rw [this]
    exact countP_withElementById _ _ _ hhid
  · rintro ⟨e, he, hs, hid⟩
    have hex : ∃ y ∈ page.elements.map hideRoute, y.hasId id :=
      ⟨hideRoute e, List.mem_map.2 ⟨e, he, rfl⟩, by rw [Element.hasId, hideRoute_id]; exact hid⟩
    obtain ⟨y, hy, hyid, hmem⟩ := withElementById_hit (fun el => el.addClass "show") id _ hex
    obtain ⟨e0, h0, rfl⟩ := List.mem_map.1 hy
    have he0 : e0 = e := by
      apply unique_of_uniqueIds page.elements hu e0 e h0 he
      · rw [← hideRoute_id e0, hyid.1, hid.1]
      · rw [← hideRoute_id e0, hyid.1]; exact hyid.2
    subst he0
    refine ⟨markLink id ((hideRoute e0).addClass "show"), ?_, ?_, ?_⟩
    · rw [showRoute_elements]
      exact List.mem_map.2 ⟨_, hmem, rfl⟩
    · rw [markLink_visible, addShow_visible, hideRoute_isSection]; exact hs
    · rw [markLink_id, addClass_id]; exact hyid.1
  · intro hno x hx
    cases hv : x.visible with
    | false => rfl
    | true =>
      obtain ⟨-, e, he, hs, hid⟩ := hB x hx hv
      exact absurd hid (hno e he hs)
  · rw [showRoute_elements, List.length_map, withElementById_length, List.length_map]

/-! ## Strings and object members -/

theorem strTruthy_iff (s : String) : strTruthy s = true ↔ s ≠ "" := by
  rcases s with ⟨l⟩
  cases l with
  | nil => simp [strTruthy]
  | cons a l =>
    have h : (⟨a :: l⟩ : String) ≠ "" := fun h => by
      have := congrArg String.data h
      simp at this
    simp [strTruthy, h]

theorem strTruthy_eq_false_iff (s : String) : strTruthy s = false ↔ s = "" := by
  rw [← Bool.not_eq_true, strTruthy_iff]; simp

theorem strOr_eq (a b : String) : strOr a b = if a = "" then b else a := by
  unfold strOr
  by_cases h : a = ""
  · simp [h, (strTruthy_eq_false_iff "").2 rfl]
  · simp [h, (strTruthy_iff a).2 h]

theorem interpolate_str (s : String) : interpolate (some (JVal.str s)) = s := rfl

theorem storage_get_set_arr (ls : LocalStorage) (key : String) (l : List JVal) (fallback : JVal) :
    storage.get (storage.set ls key (JVal.arr l)) key fallback = JVal.arr l := by
  rw [storage_get_set]; rfl

theorem forumItemHTML_record (ds : Option JVal → String) (name msg : String) (time : Int) :
    forumItemHTML ds (forumRecord name msg time) = some (forumPostHTML ds name msg time) := by
  rfl

theorem feedbackItemHTML_record (name role text : String) (time : Int) :
    feedbackItemHTML (feedbackRecord name role text time)
      = some (feedbackEntryHTML name role text) := by
  have h1 : ownProp (feedbackRecord name role text time) "text" = some (JVal.str text) := rfl
  have h2 : ownProp (feedbackRecord name role text time) "name" = some (JVal.str name) := rfl
  have h3 : ownProp (feedbackRecord name role text time) "role" = some (JVal.str role) := rfl
  simp only [feedbackItemHTML, h1, h2, h3, optTruthy, jsTruthy, feedbackEntryHTML]
  by_cases h : role = ""
  · simp [h, (strTruthy_eq_false_iff "").2 rfl, interpolate_str]
  · simp [h, (strTruthy_iff role).2 h, interpolate_str]

theorem forumSubmit_stores (ls : LocalStorage) (S : List JVal) (name body : String) (now : Int)
    (hS : storage.get ls "forum" (JVal.arr []) = JVal.arr S) (hb : trim body ≠ "") :
    forumSubmit ls name body now
      = storage.set ls "forum"
          (JVal.arr (S ++ [forumRecord (if trim name = "" then "Anonim" else trim name)
            (trim body) now])) := by
  have h := (strTruthy_iff _).2 hb
  simp [forumSubmit, h, hS, strOr_eq]

theorem feedbackSubmit_stores (ls : LocalStorage) (S : List JVal) (name role text : String)
    (now : Int) (hS : storage.get ls "feedback" (JVal.arr []) = JVal.arr S)
    (hb : trim text ≠ "") :
    feedbackSubmit ls name role text now
      = storage.set ls "feedback"
          (JVal.arr (S ++ [feedbackRecord (if trim name = "" then "Anonim" else trim name)
            (trim role) (trim text) now])) := by
  have h := (strTruthy_iff _).2 hb
  simp [feedbackSubmit, h, hS, strOr_eq]

/-- C7, as stated, fails: a forum submit with no name and the body " hi " stores the
author "Anonim" and the trimmed body "hi", not the author "Anonymous" and the body as
submitted. -/
theorem C7_counterexample_anonim :
    storage.get (forumSubmit (fun _ => none) "" " hi " 0) "forum" (JVal.arr [])
        = JVal.arr [JVal.obj [("name", JVal.str "Anonim"), ("msg", JVal.str "hi"),
            ("time", JVal.num 0)]]
      ∧ JVal.str "Anonim" ≠ JVal.str "Anonymous" ∧ JVal.str "hi" ≠ JVal.str " hi " := by
  refine ⟨?_, ?_, ?_⟩
  · rfl
  · intro h; injection h with h; exact absurd h (by decide)
  · intro h; injection h with h; exact absurd h (by decide)

/-- C7, amended: name, role and body are first stripped of surrounding white space.  With
`S` the stored forum sequence and `T` the stored feedback sequence: when the trimmed body
is empty the store is unchanged; otherwise the new sequence is the old one with exactly
one record appended at the end, whose body is the trimmed body and whose author is the
trimmed name, or "Anonim" when that is empty, and every other key of the store is
unchanged. -/
theorem C7_submit_appends (ls : LocalStorage) (S T : List JVal) (name role body : String)
    (now : Int)
    (hS : storage.get ls "forum" (JVal.arr []) = JVal.arr S)
    (hT : storage.get ls "feedback" (JVal.arr []) = JVal.arr T) :
    (trim body = "" → forumSubmit ls name body now = ls ∧ feedbackSubmit ls name role body now = ls)
      ∧ (trim body ≠ "" →
          storage.get (forumSubmit ls name body now) "forum" (JVal.arr [])
            = JVal.arr (S ++ [JVal.obj [
                ("name", JVal.str (if trim name = "" then "Anonim" else trim name)),
                ("msg", JVal.str (trim body)), ("time", JVal.num now)]])
          ∧ (∀ key, key ≠ "forum" → forumSubmit ls name body now key = ls key)
          ∧ storage.get (feedbackSubmit ls name role body now) "feedback" (JVal.arr [])
            = JVal.arr (T ++ [JVal.obj [
                ("name", JVal.str (if trim name = "" then "Anonim" else trim name)),
                ("role", JVal.str (trim role)),
                ("text", JVal.str (trim body)), ("time", JVal.num now)]])
          ∧ (∀ key, key ≠ "feedback" → feedbackSubmit ls name role body now key = ls key)) := by
  constructor
  · intro h
    have h2 := (strTruthy_eq_false_iff _).2 h
    simp [forumSubmit, feedbackSubmit, h2]
  · intro h
    rw [forumSubmit_stores ls S name body now hS h,
      feedbackSubmit_stores ls T name role body now hT h]
    refine ⟨?_, ?_, ?_, ?_⟩
    · exact storage_get_set_arr _ _ _ _
    · intro key hk; exact storage_set_of_ne _ _ _ _ hk
    · exact storage_get_set_arr _ _ _ _
    · intro key hk; exact storage_set_of_ne _ _ _ _ hk

/-- C7 at concrete inputs: one post on an empty store, and a body of blanks. -/
theorem C7_submit_appends_witness :
    storage.get (forumSubmit (fun _ => none) "Ann" "hello" 7) "forum" (JVal.arr [])
        = JVal.arr [JVal.obj [("name", JVal.str "Ann"), ("msg", JVal.str "hello"),
            ("time", JVal.num 7)]]
      ∧ forumSubmit (fun _ => none) "Ann" "  " 7 = (fun _ => none) :=
  ⟨((C7_submit_appends (fun _ => none) [] [] "Ann" "" "hello" 7 rfl rfl).2 (by decide)).1,
   ((C7_submit_appends (fun _ => none) [] [] "Ann" "" "  " 7 rfl rfl).1 (by decide)).1⟩

theorem samplePage_uniqueIds : UniqueIds samplePage.elements := by
  decide

/-- C9 on the sample page: `quiz` becomes the one visible section, an unknown id leaves
none visible. -/
theorem C9_router_exclusive_witness :
    (showRoute samplePage "quiz").elements.countP Element.visible ≤ 1
      ∧ (∃ x ∈ (showRoute samplePage "quiz").elements, x.visible = true ∧ x.id = "quiz")
      ∧ (∀ x ∈ (showRoute samplePage "nowhere").elements, x.visible = false) :=
  ⟨(C9_router_exclusive samplePage "quiz" samplePage_uniqueIds).1,
   (C9_router_exclusive samplePage "quiz" samplePage_uniqueIds).2.2.1
     ⟨_, List.mem_cons_of_mem _ (List.mem_cons_self _ _), by decide, by decide, by decide⟩,
   (C9_router_exclusive samplePage "nowhere" samplePage_uniqueIds).2.2.2.1 (by decide)⟩

/-- C10 fails on the code at a post whose author name holds markup: the forum and the
feedback board insert the name (and the role) as they are, so the `<` of `<b>` and `<i>`
reaches the markup; only the body is escaped. -/
theorem C10_name_and_role_not_escaped :
    forumRender (fun _ => "t") (forumSubmit (fun _ => none) "<b>Eve" "a<b" 0)
        = ["\n        <div class=\"forum-meta\"><b>Eve • t</div>\n        <div>a&lt;b</div>\n      "]
      ∧ feedbackRender (feedbackSubmit (fun _ => none) "<b>Eve" "<i>dev" "a<b" 0)
        = ["<div class=\"feedback-name\"><b>Eve • <i>dev</div><div>a&lt;b</div>"] := by
  constructor <;> rfl

theorem escapeLt_no_lt (s : String) : '<' ∉ (escapeLt s).data := by
  simp only [escapeLt, List.mem_flatMap, not_exists, not_and]
  intro c _
  by_cases h : c = '<'
  · simp [h]
  · simp [h]
    exact fun e => h e.symm

/-- The body of a record is escaped: the markup of a stored forum record and of a stored
feedback record is the fixed frame around the name (and role) and the escaped body, and
the escaped body holds no `<`. -/
theorem body_is_escaped (ds : Option JVal → String) (name role body : String) (time : Int) :
    forumItemHTML ds (forumRecord name body time)
        = some ("\n        <div class=\"forum-meta\">" ++ name ++ " • "
            ++ ds (some (JVal.num time)) ++ "</div>\n        <div>" ++ escapeLt body
            ++ "</div>\n      ")
      ∧ feedbackItemHTML (feedbackRecord name role body time)
        = some ("<div class=\"feedback-name\">" ++ name
            ++ (if role = "" then "" else " • " ++ role)
            ++ "</div><div>" ++ escapeLt body ++ "</div>")
      ∧ '<' ∉ (escapeLt body).data :=
  ⟨forumItemHTML_record ds name body time, feedbackItemHTML_record name role body time,
    escapeLt_no_lt body⟩

/-- Logout removes the session whatever the store holds, touches no other key, and
deleting twice is deleting once. -/
theorem logout_deletes_session (ls : LocalStorage) :
    (logoutClick ls).1 "session" = none
      ∧ storage.get (logoutClick ls).1 "session" JVal.null = JVal.null
      ∧ (∀ key, key ≠ "session" → (logoutClick ls).1 key = ls key)
      ∧ storage.del (storage.del ls "session") "session" = storage.del ls "session" := by
  refine ⟨?_, ?_, ?_, ?_⟩
  · simp [logoutClick, storage.del, localStorage_removeItem]
  · have hn : JSON_parse "null" = some JVal.null := by rfl
    simp [logoutClick, storage.del, localStorage_removeItem, storage.get, localStorage_getItem,
      JSON_parse_item, hn, nullish]
  · intro key hk
    simp [logoutClick, storage.del, localStorage_removeItem, hk]
  · funext k
    simp only [storage.del, localStorage_removeItem]
    split <;> rfl

end Belajar
